import Mathlib

/-!
Verification of the MCP lifecycle manager and tool-invocation router of the
`any-mcp` repository, as a shallow embedding in Lean 4.

Embedded source files:
* `src/mcp_installer.py`   — `MCPType`, `MCPConfig`, `MCPInstaller`
  (install / uninstall / load / save / lookup of server definitions);
* `src/any_mcp/managers/manager.py` — `MCPManager`
  (initialize / setup_mcp / call_mcp / stop_mcp / health_check / get_mcp_status);
* `src/mcp_client.py`      — `MCPClient.list_tools` (catch-all, returns `[]`);
* `src/core/error_handling.py` — `with_retry` and `CircuitBreaker`;
* `src/any_mcp/cli/main.py` — `_best_tool_match` and the `cmd_nl` gate.

Conventions of the embedding:
* Python strings that are only compared for equality stay `String`; strings
  that the code inspects character-wise (source URLs, tool names, queries)
  are `List Char`.
* External effects (subprocess connection success, the MCP session, the
  filesystem, wall-clock time) are oracle parameters; the code under test is
  deterministic given those oracles.
* Exceptions that a `try/except` swallows are modelled by the `Option`/`Bool`
  results the Python functions actually return; code whose exceptions escape
  is modelled with `Except`.
* General recursion that Python performs on shrinking slices is given an
  explicit fuel argument that provably exceeds the recursion depth, so the
  Lean function computes the same value as the Python recursion.
-/

/-! ## Data model: `MCPType`, `MCPConfig` (src/mcp_installer.py lines 15-32) -/

inductive MCPType where
  | docker
  | local
  | registry
deriving DecidableEq, Repr

/-- `MCPType(...).value` — the string stored in the YAML file. -/
def MCPType.value : MCPType → String
  | .docker => "docker"
  | .local => "local"
  | .registry => "registry"

/-- `MCPType(s)` for a string `s`: `none` models the `ValueError` raised by
the enum constructor on an unknown value. -/
def mcpTypeOfString (s : String) : Option MCPType :=
  if s = "docker" then some .docker
  else if s = "local" then some .local
  else if s = "registry" then some .registry
  else none

/-- `MCPConfig` dataclass.  `source` is kept as `List Char` because the code
inspects it character-wise (scheme prefixes, `.py` suffix, whitespace). -/
structure MCPConfig where
  name : String
  type : MCPType
  source : List Char
  envVars : List (String × String)
  enabled : Bool := true
  description : String := ""
deriving DecidableEq, Repr

/-- One entry of the persisted `installed_mcps` YAML mapping
(`_save_config`, src/mcp_installer.py lines 66-87). -/
structure SavedMCP where
  type : String
  source : List Char
  envVars : List (String × String)
  enabled : Bool
  description : String
deriving DecidableEq, Repr

/-! ## Installer state and persistence (src/mcp_installer.py) -/

/-- State of an `MCPInstaller` plus the world it touches: the in-memory
catalog (`installed_mcps`, a name-keyed dict modelled as a list in insertion
order with unique names), the config file on disk (`none` = missing), and
the rest of the filesystem (`path ↦ file contents`). -/
structure InstallerState where
  installed : List MCPConfig
  disk : Option (List (String × SavedMCP))
  fs : List Char → Option (List Char)

/-- `installed_mcps.get(name)` — dict lookup, assuming (as the dict
guarantees) that each name occurs at most once. -/
def getMcpConfig (installed : List MCPConfig) (name : String) : Option MCPConfig :=
  installed.find? (fun c => c.name = name)

/-- `get_enabled_mcps` (src/mcp_installer.py lines 241-243). -/
def getEnabledMcps (installed : List MCPConfig) : List MCPConfig :=
  installed.filter (·.enabled)

/-- `installed_mcps[name] = cfg` — dict update: replace in place if the key
exists, append otherwise. -/
def setCfg : List MCPConfig → MCPConfig → List MCPConfig
  | [], cfg => [cfg]
  | c :: cs, cfg => if c.name = cfg.name then cfg :: cs else c :: setCfg cs cfg

/-- `_save_config` (lines 66-87): the `installed_mcps` mapping written to the
YAML file, in dict order. -/
def saveConfig (installed : List MCPConfig) : List (String × SavedMCP) :=
  installed.map (fun m => (m.name, ⟨m.type.value, m.source, m.envVars, m.enabled, m.description⟩))

/-- `_load_config` (lines 43-64): absent file starts fresh; any entry whose
`type` string is invalid makes the whole load raise, and the `except` clause
then resets `installed_mcps` to `{}`. -/
def loadConfig (disk : Option (List (String × SavedMCP))) : List MCPConfig :=
  match disk with
  | none => []
  | some entries =>
    if entries.all (fun p => (mcpTypeOfString p.2.type).isSome) then
      entries.map (fun p =>
        { name := p.1
          type := (mcpTypeOfString p.2.type).getD .docker
          source := p.2.source
          envVars := p.2.envVars
          enabled := p.2.enabled
          description := p.2.description })
    else []

/-! ## `install_mcp` (src/mcp_installer.py lines 89-189) -/

/-- Python `str.startswith(pat)`, character by character. -/
def startsWithL : List Char → List Char → Bool
  | [], _ => true
  | _ :: _, [] => false
  | p :: ps, c :: cs => p == c && startsWithL ps cs

/-- Python `str.replace(pat, "")` (all non-overlapping occurrences, left to
right), with fuel bounded by the list length — one character is consumed per
step, so `l.length` fuel always suffices. -/
def replaceAllEmpty (pat : List Char) : Nat → List Char → List Char
  | _, [] => []
  | 0, l => l
  | fuel + 1, c :: cs =>
    if pat ≠ [] ∧ startsWithL pat (c :: cs) then
      replaceAllEmpty pat fuel ((c :: cs).drop pat.length)
    else
      c :: replaceAllEmpty pat fuel cs

/-- `source.replace(scheme, "")` as used by `install_mcp`. -/
def stripScheme (scheme source : List Char) : List Char :=
  replaceAllEmpty scheme source.length source

/-- The managed copy target `mcps/{name}.py` (`_install_local_mcp`, line 177). -/
def managedPath (name : String) : List Char :=
  ("mcps/" ++ name ++ ".py").toList

/-- `installed_mcps[name] := cfg; _save_config()` — the success tail of
`install_mcp` (lines 141-145). -/
def finishInstall (st : InstallerState) (cfg : MCPConfig) : InstallerState × Bool :=
  let installed := setCfg st.installed cfg
  ({ st with installed := installed, disk := some (saveConfig installed) }, true)

/-- `install_mcp(name, source, description, env_vars)` (lines 89-152).
`dockerOk` is the oracle for `docker --version` succeeding.  Every failure
path (`ValueError` on an unknown scheme, `FileNotFoundError` on a missing
local file, `NotImplementedError` on `registry://`, docker unavailable) is
caught by the outer `except`, which returns `False` before any mutation. -/
def installMcp (dockerOk : Bool) (st : InstallerState)
    (name : String) (source : List Char) (description : String)
    (envVars : List (String × String)) : InstallerState × Bool :=
  if startsWithL "docker://".toList source then
    let sourcePath := stripScheme "docker://".toList source
    if dockerOk then
      finishInstall st
        { name := name, type := .docker, source := sourcePath,
          envVars := envVars, enabled := true, description := description }
    else (st, false)
  else if startsWithL "local://".toList source then
    let sourcePath := stripScheme "local://".toList source
    match st.fs sourcePath with
    | none => (st, false)
    | some content =>
      let target := managedPath name
      if sourcePath = target then
        finishInstall st
          { name := name, type := .local, source := sourcePath,
            envVars := envVars, enabled := true, description := description }
      else
        finishInstall
          { st with fs := fun p => if p = target then some content else st.fs p }
          { name := name, type := .local, source := target,
            envVars := envVars, enabled := true, description := description }
  else if startsWithL "registry://".toList source then
    (st, false)
  else
    (st, false)

/-! ## Manager (src/any_mcp/managers/manager.py) -/

/-- A launch command: executable plus argument list. -/
structure LaunchCmd where
  command : String
  args : List (List Char)
deriving DecidableEq, Repr

/-- Ambient environment of the manager: `USE_UV`, and the oracle telling
whether constructing an `MCPClient` for a command and calling `connect()`
succeeds. -/
structure SysEnv where
  useUv : Bool
  connects : LaunchCmd → Bool

/-- Docker launch command built by `_setup_docker_mcp` (lines 91-116). -/
def dockerCmd (cfg : MCPConfig) : LaunchCmd :=
  { command := "docker"
    args := ["run".toList, "-i".toList, "--rm".toList] ++
      (cfg.envVars.foldr (fun kv acc => "-e".toList :: (kv.1 ++ "=" ++ kv.2).toList :: acc) []) ++
      [cfg.source] }

/-- Python `str.split()` — split on whitespace runs, dropping empties. -/
def pySplit (l : List Char) : List (List Char) :=
  (l.foldr
    (fun c acc =>
      if c.isWhitespace then [] :: acc
      else
        match acc with
        | [] => [[c]]
        | w :: ws => (c :: w) :: ws)
    []).filter (· ≠ [])

/-- Local launch command built by `_setup_local_mcp` (lines 118-164):
`none` models the `IndexError` on an empty source (caught, yielding `None`).
Dispatch: leading `npx`, then a `.py` suffix of the whole source, then a raw
command line. -/
def localCmd (useUv : Bool) (source : List Char) : Option LaunchCmd :=
  match pySplit source with
  | [] => none
  | w :: ws =>
    if w = "npx".toList then some { command := "npx", args := ws }
    else if ".py".toList.isSuffixOf source then
      if useUv then some { command := "uv", args := ["run".toList, source] }
      else some { command := "python", args := [source] }
    else some { command := ⟨w⟩, args := ws }

/-- Runtime state of an `MCPManager`: the `active_clients` dict (insertion
order, client handles numbered by creation), the shared `exit_stack`
(as the list of registered handles), the `_initialized` flag, and a counter
giving each constructed client a fresh id. -/
structure ManagerState where
  activeClients : List (String × Nat)
  exitStack : List Nat
  initialized : Bool
  nextClientId : Nat
deriving DecidableEq, Repr

/-- A fresh manager (`MCPManager.__init__`, lines 19-23). -/
def initialManager : ManagerState :=
  { activeClients := [], exitStack := [], initialized := false, nextClientId := 0 }

/-- The construct-client-then-connect step shared by the docker and local
branches of `setup_mcp`: on success the client is registered with the exit
stack and the active map; a `connect()` failure is caught and yields
`False` with the maps untouched. -/
def attemptConnect (env : SysEnv) (st : ManagerState) (name : String)
    (cmd : LaunchCmd) : ManagerState × Bool :=
  if env.connects cmd then
    ({ st with
        activeClients := st.activeClients ++ [(name, st.nextClientId)]
        exitStack := st.exitStack ++ [st.nextClientId]
        nextClientId := st.nextClientId + 1 }, true)
  else
    ({ st with nextClientId := st.nextClientId + 1 }, false)

/-- `setup_mcp` (lines 44-89). -/
def setupMcp (env : SysEnv) (installed : List MCPConfig) (st : ManagerState)
    (name : String) : ManagerState × Bool :=
  if (st.activeClients.lookup name).isSome then (st, true)
  else
    match getMcpConfig installed name with
    | none => (st, false)
    | some cfg =>
      if cfg.enabled = false then (st, false)
      else
        match cfg.type with
        | .registry => (st, false)
        | .docker => attemptConnect env st name (dockerCmd cfg)
        | .local =>
          match localCmd env.useUv cfg.source with
          | none => (st, false)
          | some cmd => attemptConnect env st name cmd

/-- `initialize` (lines 25-42): on first call, run `setup_mcp` over every
enabled definition (none of those calls can raise), then set the flag;
later calls return immediately. -/
def initializeMgr (env : SysEnv) (installed : List MCPConfig)
    (st : ManagerState) : ManagerState :=
  if st.initialized then st
  else
    let st' := (getEnabledMcps installed).foldl
      (fun s cfg => (setupMcp env installed s cfg.name).1) st
    { st' with initialized := true }

/-- `call_mcp` (lines 166-189).  `clientCall` is the oracle for
`MCPClient.call_tool` on a given client handle (which itself returns `None`
on every internal failure, src/mcp_client.py lines 63-73); the manager's own
`except` also maps any escape to `None`, so the entry point is total.  The
state is returned unchanged: the routing never mutates the manager. -/
def callMcp {R : Type} (clientCall : Nat → String → List (String × String) → Option R)
    (st : ManagerState) (name toolName : String) (args : List (String × String)) :
    ManagerState × Option R :=
  match st.activeClients.lookup name with
  | none => (st, none)
  | some c => (st, clientCall c toolName args)

/-- `stop_mcp` (lines 234-256): not active → `False`; otherwise clean up the
handle and delete the entry.  `cleanupOk` is the oracle for
`client.cleanup()` succeeding (on failure the entry is *not* removed). -/
def stopMcp (cleanupOk : Nat → Bool) (st : ManagerState) (name : String) :
    ManagerState × Bool :=
  match st.activeClients.lookup name with
  | none => (st, false)
  | some c =>
    if cleanupOk c then
      ({ st with activeClients := st.activeClients.filter (fun p => p.1 ≠ name) }, true)
    else (st, false)

/-! ## Client and health check (src/mcp_client.py, manager lines 271-315) -/

/-- `MCPClient.list_tools` (src/mcp_client.py lines 53-61): the session call
(oracle `sess`, which may fail) is wrapped in a catch-all that degrades every
failure to the empty list, so the function is total. -/
def clientListTools (sess : Nat → Except String (List String)) (c : Nat) :
    List String :=
  match sess c with
  | .ok tools => tools
  | .error _ => []

/-- `health_check` (manager lines 271-291): not active → `False`; otherwise
call `client.list_tools()` — which never raises — and return `True`. -/
def healthCheck (sess : Nat → Except String (List String)) (st : ManagerState)
    (name : String) : Bool :=
  match st.activeClients.lookup name with
  | none => false
  | some c =>
    let _tools := clientListTools sess c
    true

/-- One row of `get_mcp_status` (manager lines 293-315). -/
structure MCPStatusRow where
  type : String
  enabled : Bool
  active : Bool
  healthy : Bool
  description : String
deriving DecidableEq, Repr

/-- `get_mcp_status`: iterate the full registry; `active` from the in-memory
map, `healthy` via `health_check` only when active. -/
def getMcpStatus (sess : Nat → Except String (List String))
    (installed : List MCPConfig) (st : ManagerState) :
    List (String × MCPStatusRow) :=
  installed.map (fun cfg =>
    let isActive := (st.activeClients.lookup cfg.name).isSome
    let isHealthy := if isActive then healthCheck sess st cfg.name else false
    (cfg.name,
      { type := cfg.type.value, enabled := cfg.enabled, active := isActive,
        healthy := isHealthy, description := cfg.description }))

/-! ## Retry wrapper (src/core/error_handling.py lines 97-131) -/

/-- The `MCPError` taxonomy, restricted to what `with_retry` branches on.
`rateLimitErr` carries the optional `retry_after` field of
`MCPRateLimitError` (line 76); `otherErr` stands for every exception that is
not one of the three caught classes. -/
inductive TErr where
  | connErr
  | timeoutErr
  | rateLimitErr (retryAfter : Option Int)
  | otherErr (code : Nat)
deriving DecidableEq, Repr

/-- Membership in the `except (MCPConnectionError, MCPTimeoutError,
MCPRateLimitError)` tuple (line 108). -/
def transientErr : TErr → Bool
  | .connErr => true
  | .timeoutErr => true
  | .rateLimitErr _ => true
  | .otherErr _ => false

/-- Outcome of invoking the wrapped function once. -/
inductive Att where
  | ok (v : Nat)
  | err (e : TErr)
deriving DecidableEq, Repr

/-- The wait chosen before the next attempt (lines 114-118):
`if isinstance(e, MCPRateLimitError) and e.retry_after:` — Python truthiness,
so `retry_after = 0` (and `None`) falls back to the current backoff delay. -/
def waitChoice : Att → ℚ → ℚ
  | .err (.rateLimitErr (some r)), cur => if r ≠ 0 then (r : ℚ) else cur
  | _, cur => cur

/-- What the `with_retry` wrapper does overall. -/
inductive ROut where
  | value (v : Nat)
  | raised (e : TErr)
  | raisedNone
deriving DecidableEq, Repr

/-- The `for attempt in range(max_attempts)` loop (lines 105-126), driven by
`f : attempt index → outcome`.  Returns the overall outcome, the list of
sleeps performed, and the number of invocations of the wrapped function.
`fuel` is the number of remaining loop iterations (`maxA - i`);
`.raisedNone` is the `raise last_exception` with `last_exception = None`
reachable only when `max_attempts = 0`. -/
def retryGo (f : Nat → Att) (maxA : Nat) (backoff : ℚ) :
    Nat → Nat → ℚ → List ℚ → ROut × List ℚ × Nat
  | 0, i, _, waits => (.raisedNone, waits, i)
  | fuel + 1, i, cur, waits =>
    match f i with
    | .ok v => (.value v, waits, i + 1)
    | .err e =>
      if transientErr e then
        if i + 1 = maxA then (.raised e, waits, i + 1)
        else retryGo f maxA backoff fuel (i + 1) (cur * backoff)
          (waits ++ [waitChoice (.err e) cur])
      else (.raised e, waits, i + 1)

/-- `with_retry(max_attempts, delay, backoff_factor)` applied to a function
whose attempt outcomes are given by `f`. -/
def withRetry (maxA : Nat) (delay backoff : ℚ) (f : Nat → Att) :
    ROut × List ℚ × Nat :=
  retryGo f maxA backoff maxA 0 delay []

/-! ## Circuit breaker (src/core/error_handling.py lines 172-214) -/

inductive CBState where
  | Closed
  | Open
  | HalfOpen
deriving DecidableEq, Repr

/-- The mutable fields of `CircuitBreaker.__init__` (lines 175-183) together
with its configuration.  Time is rational (`time.time()` values are supplied
by the caller of each step). -/
structure CB where
  failureThreshold : Nat
  recoveryTimeout : ℚ
  failureCount : Nat
  lastFailureTime : Option ℚ
  state : CBState
deriving DecidableEq, Repr

/-- A freshly constructed breaker. -/
def cbInit (th : Nat) (rt : ℚ) : CB :=
  { failureThreshold := th, recoveryTimeout := rt, failureCount := 0,
    lastFailureTime := none, state := .Closed }

/-- Outcome of the wrapped function, had it been invoked: success, a failure
of the `expected_exception` kind, or any other exception. -/
inductive CBOutcome where
  | success
  | expectedFail
  | otherFail
deriving DecidableEq, Repr

/-- What one call through the breaker did. -/
inductive CBResult where
  | rejected
  | returned
  | raisedExpected
  | raisedOther
  | crashed
deriving DecidableEq, Repr

/-- The `try` block of the wrapper (lines 195-212): invoke, reset on
success (closing a half-open circuit), count and possibly open on an
expected failure, pass other exceptions through untouched. -/
def cbRun (cb : CB) (now : ℚ) (outcome : CBOutcome) : CB × CBResult :=
  match outcome with
  | .success =>
    let cb := if cb.state = .HalfOpen then { cb with state := .Closed } else cb
    ({ cb with failureCount := 0 }, .returned)
  | .expectedFail =>
    let fc := cb.failureCount + 1
    let cb := { cb with failureCount := fc, lastFailureTime := some now }
    if cb.failureThreshold ≤ fc then ({ cb with state := .Open }, .raisedExpected)
    else (cb, .raisedExpected)
  | .otherFail => (cb, .raisedOther)

/-- One call through the wrapper (lines 185-214): the OPEN gate first
(`time.time() - last_failure_time > recovery_timeout` moves to HALF_OPEN,
otherwise the call is rejected without invoking the function), then the
`try` block.  `.crashed` is the `TypeError` Python would raise subtracting
`None`; it is unreachable from `cbInit` because OPEN is only entered by a
failure that sets `last_failure_time`. -/
def cbCall (cb : CB) (now : ℚ) (outcome : CBOutcome) : CB × CBResult :=
  match cb.state with
  | .Open =>
    match cb.lastFailureTime with
    | none => (cb, .crashed)
    | some t =>
      if cb.recoveryTimeout < now - t then cbRun { cb with state := .HalfOpen } now outcome
      else (cb, .rejected)
  | _ => cbRun cb now outcome

/-- The invariant every breaker reachable from `cbInit` satisfies: away from
CLOSED the consecutive-failure count has reached the threshold and a last
failure time is recorded. -/
def CBInv (cb : CB) : Prop :=
  cb.state ≠ .Closed →
    cb.failureThreshold ≤ cb.failureCount ∧ cb.lastFailureTime.isSome

/-! ## Fuzzy tool matcher (src/any_mcp/cli/main.py lines 217-264, 302-314) -/

/-- `difflib`: length of the common prefix of two character lists. -/
def commonPrefixLen : List Char → List Char → Nat
  | c :: cs, d :: ds => if c = d then commonPrefixLen cs ds + 1 else 0
  | _, _ => 0

/-- `SequenceMatcher.find_longest_match` on whole sequences (no junk, since
autojunk only fires on sequences of length ≥ 200): the longest matching
block `(i, j, size)`, ties broken by the earliest start in `a`, then the
earliest start in `b`. -/
def findLongest (a b : List Char) : Nat × Nat × Nat :=
  (List.range a.length).foldl
    (fun best i =>
      (List.range b.length).foldl
        (fun best j =>
          let k := commonPrefixLen (a.drop i) (b.drop j)
          if best.2.2 < k then (i, j, k) else best)
        best)
    (0, 0, 0)

/-- Total size of `SequenceMatcher.get_matching_blocks`: recursively take the
longest match and recurse on both sides.  Each level of the recursion
removes at least one character from `a ++ b`, so `a.length + b.length + 1`
fuel always computes the full recursion. -/
def totalMatchesFuel : Nat → List Char → List Char → Nat
  | 0, _, _ => 0
  | fuel + 1, a, b =>
    let m := findLongest a b
    if m.2.2 = 0 then 0
    else
      totalMatchesFuel fuel (a.take m.1) (b.take m.2.1) + m.2.2 +
        totalMatchesFuel fuel (a.drop (m.1 + m.2.2)) (b.drop (m.2.1 + m.2.2))

/-- `SequenceMatcher(None, a, b).ratio() = 2·M / (len a + len b)`
(and `1.0` for two empty sequences). -/
def simRatio (a b : List Char) : ℚ :=
  let t := a.length + b.length
  if t = 0 then 1
  else (2 * totalMatchesFuel (t + 1) a b : ℚ) / (t : ℚ)

/-- A character of `[a-zA-Z_]+` (the token regex of `_best_tool_match`). -/
def isWordChar (c : Char) : Bool :=
  c.isAlpha || c == '_'

/-- `re.findall(r"[a-zA-Z_]+", s)` — the maximal word-character runs. -/
def wordRuns (l : List Char) : List (List Char) :=
  (l.foldr
    (fun c acc =>
      if isWordChar c then
        match acc with
        | [] => [[c]]
        | w :: ws => (c :: w) :: ws
      else [] :: acc)
    []).filter (· ≠ [])

/-- The token list of `_best_tool_match` (line 225): word runs of the
lowercased query that are longer than 2 characters. -/
def queryTokens (query : List Char) : List (List Char) :=
  (wordRuns (query.map Char.toLower)).filter (fun t => 2 < t.length)

/-- Whether `pat` occurs as a substring (Python `pat in s`). -/
def hasSubstr (pat : List Char) : List Char → Bool
  | [] => pat.isEmpty
  | c :: cs => startsWithL pat (c :: cs) || hasSubstr pat cs

/-- The read-like verb list (line 229). -/
def readVerbs : List (List Char) :=
  ["read".toList, "get".toList, "show".toList, "fetch".toList,
   "list".toList, "view".toList, "open".toList]

/-- The edit-like verb list (line 232). -/
def editVerbs : List (List Char) :=
  ["edit".toList, "update".toList, "write".toList, "set".toList,
   "change".toList, "modify".toList]

/-- `score_tool(name)` (lines 235-255): half the whole-string similarity,
plus half the best per-token similarity, plus a 0.15 starts-with bonus, plus
the verb bonuses (read 0.2 + list 0.15 when a read-like token is present and
`"read"` occurs in the name; edit 0.2 when an edit-like token is present and
`"edit"`/`"write"`/`"update"` occurs in the name). -/
def scoreTool (queryL : List Char) (tokens : List (List Char)) (name : List Char) : ℚ :=
  let nameL := name.map Char.toLower
  let base := simRatio queryL nameL
  let tokenBest := tokens.foldl (fun b t => max b (simRatio t nameL)) 0
  let startsBonus : ℚ := if tokens.any (fun t => startsWithL t nameL) then 3/20 else 0
  let hasReadVerb := readVerbs.any (fun v => tokens.contains v)
  let hasEditVerb := editVerbs.any (fun v => tokens.contains v)
  let vbonus : ℚ :=
    (if hasSubstr "read".toList nameL then
      (if hasReadVerb then 1/5 else 0) + (if hasReadVerb then 3/20 else 0)
     else 0) +
    (if hasSubstr "edit".toList nameL || hasSubstr "write".toList nameL ||
        hasSubstr "update".toList nameL then
      (if hasEditVerb then 1/5 else 0)
     else 0)
  1/2 * base + 1/2 * tokenBest + startsBonus + vbonus

/-- `_best_tool_match(tools, query)` (lines 223-264): the highest-scoring
tool name with its score, ties won by the earlier tool, starting from
`(None, -1.0)`. -/
def bestToolMatch (tools : List (List Char)) (query : List Char) :
    Option (List Char) × ℚ :=
  let queryL := query.map Char.toLower
  let tokens := queryTokens query
  tools.foldl
    (fun best name =>
      let s := scoreTool queryL tokens name
      if best.2 < s then (some name, s) else best)
    (none, -1)

/-- The gate of `cmd_nl` (lines 311-314): `if not tool_name or score < 0.5:`
refuse; an empty name is falsy in Python, so it also refuses. -/
def nlWouldInvoke (tools : List (List Char)) (query : List Char) : Bool :=
  match bestToolMatch tools query with
  | (none, _) => false
  | (some n, s) => !n.isEmpty && !(s < 1/2)

/-! ## Derived observables used by the statements -/

/-- Number of active connections registered under a name. -/
def activeCount (st : ManagerState) (name : String) : Nat :=
  (st.activeClients.filter (fun p => p.1 = name)).length

/-- Whether, per its registry definition, `setup_mcp` would get a live
client for this config: the type dispatch of `setup_mcp` combined with the
connect oracle. -/
def canStart (env : SysEnv) (cfg : MCPConfig) : Bool :=
  match cfg.type with
  | .registry => false
  | .docker => env.connects (dockerCmd cfg)
  | .local =>
    match localCmd env.useUv cfg.source with
    | none => false
    | some cmd => env.connects cmd

/-- `n` successive `setup_mcp(name)` calls (ignoring the returned booleans). -/
def iterSetup (env : SysEnv) (installed : List MCPConfig) (st : ManagerState)
    (name : String) : Nat → ManagerState
  | 0 => st
  | n + 1 => (setupMcp env installed (iterSetup env installed st name n) name).1

/-- `attempt outcome is a transient failure` — the condition under which the
retry loop goes around again. -/
def attErrTransient : Att → Bool
  | .ok _ => false
  | .err e => transientErr e

/-! # Theorems -/

/-! ## Helper lemmas on assoc-list lookups -/

theorem lookupAppend (xs ys : List (String × Nat)) (a : String) :
    (xs ++ ys).lookup a = Option.or (xs.lookup a) (ys.lookup a) := by
  induction xs with
  | nil => simp [List.lookup, Option.or]
  | cons p xs ih =>
    obtain ⟨k, v⟩ := p
    by_cases h : a = k
    · simp [List.lookup, h, Option.or]
    · simp only [List.cons_append, List.lookup]
      rw [beq_false_of_ne h]
      exact ih

theorem filterKeyEqNil {l : List (String × Nat)} {a : String}
    (h : l.lookup a = none) : l.filter (fun p => p.1 = a) = [] := by
  induction l with
  | nil => rfl
  | cons p l ih =>
    obtain ⟨k, v⟩ := p
    simp only [List.lookup] at h
    cases hk : (a == k) with
    | true => rw [hk] at h; exact absurd h (by simp)
    | false =>
      rw [hk] at h
      have hne : k ≠ a := fun he => by simp [he] at hk
      simp [List.filter_cons, hne, ih h]

theorem lookupSingleNe {a k : String} {v : Nat} (h : k ≠ a) :
    ([(k, v)] : List (String × Nat)).lookup a = none := by
  simp [List.lookup, beq_false_of_ne (Ne.symm h)]

/-! ## Structural lemmas about `setup_mcp` -/

/-- Every run of `setup_mcp` does exactly one of three things: short-circuit
on an already-active name (state unchanged, `True`); fail with the active
map unchanged; or — the name was inactive — succeed and append exactly one
new entry for this name. -/
theorem setupMcp_shape (env : SysEnv) (installed : List MCPConfig)
    (st : ManagerState) (name : String) :
    ((st.activeClients.lookup name).isSome ∧
      setupMcp env installed st name = (st, true)) ∨
    ((setupMcp env installed st name).1.activeClients = st.activeClients ∧
      (setupMcp env installed st name).2 = false) ∨
    (st.activeClients.lookup name = none ∧
      (setupMcp env installed st name).1.activeClients
        = st.activeClients ++ [(name, st.nextClientId)] ∧
      (setupMcp env installed st name).2 = true) := by
  unfold setupMcp attemptConnect
  split
  next hs => exact Or.inl ⟨hs, rfl⟩
  next hns =>
    have hnone : st.activeClients.lookup name = none := by
      cases h : st.activeClients.lookup name with
      | none => rfl
      | some v => rw [h] at hns; simp at hns
    cases hc : getMcpConfig installed name with
    | none => simp [hc]
    | some cfg =>
      simp only [hc]
      split
      · exact Or.inr (Or.inl ⟨rfl, rfl⟩)
      · split
        · exact Or.inr (Or.inl ⟨rfl, rfl⟩)
        · split
          · exact Or.inr (Or.inr ⟨hnone, rfl, rfl⟩)
          · exact Or.inr (Or.inl ⟨rfl, rfl⟩)
        · cases hl : localCmd env.useUv cfg.source with
          | none => simp [hl]
          | some cmd =>
            simp only [hl]
            split
            · exact Or.inr (Or.inr ⟨hnone, rfl, rfl⟩)
            · exact Or.inr (Or.inl ⟨rfl, rfl⟩)

/-- An already-active name short-circuits: the state is returned unchanged
(no client construction, no connection, no map update) with `True`. -/
theorem setupMcp_active (env : SysEnv) (installed : List MCPConfig)
    (st : ManagerState) (name : String)
    (h : (st.activeClients.lookup name).isSome) :
    setupMcp env installed st name = (st, true) := by
  unfold setupMcp
  simp [h]

/-- C1.  At-most-one-connection invariant: `setup_mcp(name)` on an
already-active name returns `True` with the state (active map, exit stack,
client counter) unchanged; any `setup_mcp` call preserves "at most one
active connection per name"; and after a successful `setup_mcp` on an
inactive name there is exactly one connection for it and a second
`setup_mcp` without an intervening `stop_mcp` returns `True` leaving the
state — hence also the number of connections and subprocesses — unchanged. -/
theorem c1_at_most_one_connection (env : SysEnv) (installed : List MCPConfig)
    (st : ManagerState) (name : String) :
    ((st.activeClients.lookup name).isSome →
      setupMcp env installed st name = (st, true)) ∧
    (activeCount st name ≤ 1 →
      activeCount (setupMcp env installed st name).1 name ≤ 1) ∧
    (st.activeClients.lookup name = none →
      (setupMcp env installed st name).2 = true →
      activeCount (setupMcp env installed st name).1 name = 1 ∧
      setupMcp env installed (setupMcp env installed st name).1 name
        = ((setupMcp env installed st name).1, true)) := by
  refine ⟨fun h => setupMcp_active env installed st name h, fun hle => ?_, fun h0 h1 => ?_⟩
  · rcases setupMcp_shape env installed st name with ⟨_, heq⟩ | ⟨heq, _⟩ | ⟨hnone, happ, _⟩
    · rw [heq]; exact hle
    · unfold activeCount; rw [heq]; exact hle
    · unfold activeCount
      rw [happ, List.filter_append, filterKeyEqNil hnone]
      simp
  · rcases setupMcp_shape env installed st name with ⟨hs, _⟩ | ⟨_, hf⟩ | ⟨hnone, happ, _⟩
    · rw [h0] at hs; simp at hs
    · rw [h1] at hf; simp at hf
    · have hcount : activeCount (setupMcp env installed st name).1 name = 1 := by
        unfold activeCount
        rw [happ, List.filter_append, filterKeyEqNil h0]
        simp
      have hsome : (((setupMcp env installed st name).1.activeClients.lookup name)).isSome := by
        rw [happ, lookupAppend, h0]
        simp [List.lookup, Option.or]
      exact ⟨hcount, setupMcp_active env installed _ name hsome⟩

/-- Closed instance of C1: a fresh manager, a registry with one enabled
local server, a connect oracle that succeeds; after the first `setup_mcp`
there is exactly one connection and the second call changes nothing. -/
theorem c1_witness :
    (initialManager.activeClients.lookup "srv" = none) ∧
    ((setupMcp ⟨false, fun _ => true⟩
      [{ name := "srv", type := .local, source := "a.py".toList,
         envVars := [], enabled := true, description := "" }]
      initialManager "srv").2 = true) ∧
    activeCount (setupMcp ⟨false, fun _ => true⟩
      [{ name := "srv", type := .local, source := "a.py".toList,
         envVars := [], enabled := true, description := "" }]
      initialManager "srv").1 "srv" = 1 :=
  ⟨rfl, by decide,
    ((c1_at_most_one_connection ⟨false, fun _ => true⟩
      [{ name := "srv", type := .local, source := "a.py".toList,
         envVars := [], enabled := true, description := "" }]
      initialManager "srv").2.2 rfl (by decide)).1⟩

/-! ## Registry lookup and `setup_mcp` preservation lemmas -/

theorem getMcpConfig_mem {installed : List MCPConfig} {name : String} {cfg : MCPConfig}
    (h : getMcpConfig installed name = some cfg) :
    cfg ∈ installed ∧ cfg.name = name := by
  refine ⟨List.mem_of_find?_eq_some h, ?_⟩
  have := List.find?_some h
  simpa using this

theorem nodup_name_inj {installed : List MCPConfig}
    (hnodup : (installed.map MCPConfig.name).Nodup) :
    ∀ a ∈ installed, ∀ b ∈ installed, a.name = b.name → a = b := by
  induction installed with
  | nil => intro a ha; simp at ha
  | cons c cs ih =>
    simp only [List.map_cons, List.nodup_cons] at hnodup
    intro a ha b hb hab
    rcases List.mem_cons.mp ha with rfl | ha' <;>
      rcases List.mem_cons.mp hb with rfl | hb'
    · rfl
    · exact absurd (hab ▸ List.mem_map_of_mem MCPConfig.name hb') hnodup.1
    · exact absurd (hab ▸ List.mem_map_of_mem MCPConfig.name ha') hnodup.1
    · exact ih hnodup.2 a ha' b hb' hab

theorem getMcpConfig_of_mem {installed : List MCPConfig} {cfg : MCPConfig}
    (hnodup : (installed.map MCPConfig.name).Nodup) (hmem : cfg ∈ installed) :
    getMcpConfig installed cfg.name = some cfg := by
  induction installed with
  | nil => simp at hmem
  | cons c cs ih =>
    by_cases hc : c.name = cfg.name
    · have : c = cfg :=
        nodup_name_inj hnodup c (List.mem_cons_self c cs) cfg hmem hc
      subst this
      simp [getMcpConfig, List.find?]
    · rcases List.mem_cons.mp hmem with rfl | hmem'
      · exact absurd rfl hc
      · simp only [List.map_cons, List.nodup_cons] at hnodup
        simpa [getMcpConfig, List.find?, hc] using ih hnodup.2 hmem'

/-- `setup_mcp` on one name never deactivates another (nor that name). -/
theorem setupMcp_preserves_some (env : SysEnv) (installed : List MCPConfig)
    (st : ManagerState) (name' name : String)
    (h : ((st.activeClients.lookup name)).isSome) :
    (((setupMcp env installed st name').1.activeClients.lookup name)).isSome := by
  rcases setupMcp_shape env installed st name' with ⟨_, heq⟩ | ⟨heq, _⟩ | ⟨_, happ, _⟩
  · rw [heq]; exact h
  · rw [heq]; exact h
  · rw [happ, lookupAppend]
    cases hx : st.activeClients.lookup name
    · rw [hx] at h; simp at h
    · simp [Option.or]

/-- `setup_mcp` on a different name never activates this one. -/
theorem setupMcp_preserves_none (env : SysEnv) (installed : List MCPConfig)
    (st : ManagerState) (name' name : String) (hne : name' ≠ name)
    (h : st.activeClients.lookup name = none) :
    (setupMcp env installed st name').1.activeClients.lookup name = none := by
  rcases setupMcp_shape env installed st name' with ⟨_, heq⟩ | ⟨heq, _⟩ | ⟨_, happ, _⟩
  · rw [heq]; exact h
  · rw [heq]; exact h
  · rw [happ, lookupAppend, h, lookupSingleNe hne]
    rfl

/-- A disabled or unstartable definition makes `setup_mcp` fail with the
active map unchanged. -/
theorem setupMcp_fail (env : SysEnv) (installed : List MCPConfig)
    (st : ManagerState) (name : String) (cfg : MCPConfig)
    (h : st.activeClients.lookup name = none)
    (hcfg : getMcpConfig installed name = some cfg)
    (hcant : cfg.enabled = false ∨ canStart env cfg = false) :
    (setupMcp env installed st name).1.activeClients = st.activeClients ∧
    (setupMcp env installed st name).2 = false := by
  unfold setupMcp attemptConnect
  rw [h]
  simp only [Option.isSome_none, Bool.false_eq_true, if_false, hcfg]
  rcases hcant with hdis | hcant
  · simp [hdis]
  · unfold canStart at hcant
    by_cases hen : cfg.enabled = false
    · simp [hen]
    · rw [if_neg hen]
      cases hty : cfg.type
      · rw [hty] at hcant
        simp only [] at hcant
        simp [hcant]
      · rw [hty] at hcant
        simp only [] at hcant
        cases hl : localCmd env.useUv cfg.source
        · simp [hl]
        · rw [hl] at hcant
          simp only [] at hcant
          simp [hl, hcant]
      · exact ⟨rfl, rfl⟩

/-- An enabled, startable definition makes `setup_mcp` succeed. -/
theorem setupMcp_success (env : SysEnv) (installed : List MCPConfig)
    (st : ManagerState) (name : String) (cfg : MCPConfig)
    (h : st.activeClients.lookup name = none)
    (hcfg : getMcpConfig installed name = some cfg)
    (hen : cfg.enabled = true) (hcan : canStart env cfg = true) :
    (setupMcp env installed st name).2 = true := by
  unfold setupMcp attemptConnect
  rw [h]
  simp only [Option.isSome_none, Bool.false_eq_true, if_false, hcfg]
  rw [if_neg (by simp [hen])]
  unfold canStart at hcan
  cases hty : cfg.type
  · rw [hty] at hcan
    simp only [] at hcan
    simp [hcan]
  · rw [hty] at hcan
    simp only [] at hcan
    cases hl : localCmd env.useUv cfg.source
    · rw [hl] at hcan
      simp at hcan
    · rw [hl] at hcan
      simp only [] at hcan
      simp [hl, hcan]
  · rw [hty] at hcan
    simp at hcan

/-- The startup fold of `initialize` keeps active names active. -/
theorem foldSetup_preserves_some (env : SysEnv) (installed : List MCPConfig)
    (name : String) :
    ∀ (l : List MCPConfig) (st : ManagerState),
      ((st.activeClients.lookup name)).isSome →
      (((l.foldl (fun s cfg => (setupMcp env installed s cfg.name).1)
          st).activeClients.lookup name)).isSome := by
  intro l
  induction l with
  | nil => intro st h; exact h
  | cons c cs ih =>
    intro st h
    exact ih _ (setupMcp_preserves_some env installed st c.name name h)

/-- If every definition in the list either has a different name or cannot
start, the startup fold never activates `name`. -/
theorem foldSetup_preserves_none (env : SysEnv) (installed : List MCPConfig)
    (name : String) :
    ∀ (l : List MCPConfig) (st : ManagerState),
      (∀ c ∈ l, c.name ≠ name ∨
        ∃ cfg, getMcpConfig installed name = some cfg ∧
          (cfg.enabled = false ∨ canStart env cfg = false)) →
      st.activeClients.lookup name = none →
      ((l.foldl (fun s cfg => (setupMcp env installed s cfg.name).1)
          st).activeClients.lookup name) = none := by
  intro l
  induction l with
  | nil => intro st _ h; exact h
  | cons c cs ih =>
    intro st hstep h
    refine ih _ (fun c' hc' => hstep c' (List.mem_cons_of_mem c hc')) ?_
    rcases hstep c (List.mem_cons_self c cs) with hne | ⟨cfg, hcfg, hcant⟩
    · exact setupMcp_preserves_none env installed st c.name name hne h
    · by_cases hne : c.name = name
      · show ((setupMcp env installed st c.name).1.activeClients.lookup name) = none
        rw [hne, (setupMcp_fail env installed st name cfg h hcfg hcant).1]
        exact h
      · exact setupMcp_preserves_none env installed st c.name name hne h

/-- If an enabled, startable definition is in the list, the startup fold
activates it. -/
theorem foldSetup_activates (env : SysEnv) (installed : List MCPConfig)
    (target : MCPConfig)
    (hcfg : getMcpConfig installed target.name = some target)
    (hen : target.enabled = true) (hcan : canStart env target = true) :
    ∀ (l : List MCPConfig) (st : ManagerState), target ∈ l →
      (((l.foldl (fun s cfg => (setupMcp env installed s cfg.name).1)
          st).activeClients.lookup target.name)).isSome := by
  intro l
  induction l with
  | nil => intro st h; simp at h
  | cons c cs ih =>
    intro st hmem
    rcases List.mem_cons.mp hmem with rfl | hmem'
    · by_cases hs : ((st.activeClients.lookup target.name)).isSome
      · exact foldSetup_preserves_some env installed target.name cs _
          (setupMcp_preserves_some env installed st target.name target.name hs)
      · have hnone : st.activeClients.lookup target.name = none := by
          cases hx : st.activeClients.lookup target.name
          · rfl
          · rw [hx] at hs; simp at hs
        have htrue := setupMcp_success env installed st target.name target hnone hcfg hen hcan
        rcases setupMcp_shape env installed st target.name with
          ⟨hs', _⟩ | ⟨_, hf⟩ | ⟨_, happ, _⟩
        · rw [hnone] at hs'; simp at hs'
        · rw [htrue] at hf; simp at hf
        · refine foldSetup_preserves_some env installed target.name cs _ ?_
          rw [happ, lookupAppend, hnone]
          simp [List.lookup, Option.or]
    · exact ih _ hmem'

/-- C2.  Partial-failure isolation in `initialize()`: starting from a fresh
manager, `initialize` runs to completion (a total function: each per-server
`setup_mcp` swallows its own failures), sets the initialized flag, and for
every enabled definition in the registry — names unique, as the dict
guarantees — the ones whose launch succeeds end up in the active map while
the failing ones (e.g. a local source whose file yields no runnable
command or whose connect fails) are skipped and stay inactive; no failure
aborts the rest. -/
theorem c2_partial_failure_isolation (env : SysEnv) (installed : List MCPConfig)
    (st : ManagerState)
    (hnodup : (installed.map MCPConfig.name).Nodup)
    (hfresh : st.activeClients = []) (hinit : st.initialized = false) :
    (initializeMgr env installed st).initialized = true ∧
    ∀ cfg ∈ installed, cfg.enabled = true →
      (canStart env cfg = true →
        ((((initializeMgr env installed st).activeClients.lookup cfg.name)).isSome)) ∧
      (canStart env cfg = false →
        (initializeMgr env installed st).activeClients.lookup cfg.name = none) := by
  unfold initializeMgr
  rw [hinit]
  simp only [Bool.false_eq_true, if_false]
  refine ⟨trivial, fun cfg hmem hen => ⟨fun hcan => ?_, fun hcant => ?_⟩⟩
  · exact foldSetup_activates env installed cfg
      (getMcpConfig_of_mem hnodup hmem) hen hcan
      (getEnabledMcps installed) st
      (by simpa [getEnabledMcps, List.mem_filter] using ⟨hmem, hen⟩)
  · refine foldSetup_preserves_none env installed cfg.name
      (getEnabledMcps installed) st (fun c hc => ?_) (by simp [hfresh])
    by_cases hne : c.name = cfg.name
    · exact Or.inr ⟨cfg, getMcpConfig_of_mem hnodup hmem, Or.inr hcant⟩
    · exact Or.inl hne

/-- Closed instance of C2: two enabled servers, one whose connect oracle
fails (missing file) and one that starts; `initialize` activates the good
one and skips the bad one. -/
theorem c2_witness :
    (([{ name := "good", type := .local, source := "good.py".toList,
         envVars := [], enabled := true, description := "" },
       { name := "bad", type := .local, source := "missing.py".toList,
         envVars := [], enabled := true, description := "" }].map
        MCPConfig.name).Nodup) ∧
    ((((initializeMgr
        ⟨false, fun cmd => cmd.args ≠ ["missing.py".toList]⟩
        [{ name := "good", type := .local, source := "good.py".toList,
           envVars := [], enabled := true, description := "" },
         { name := "bad", type := .local, source := "missing.py".toList,
           envVars := [], enabled := true, description := "" }]
        initialManager).activeClients.lookup "good")).isSome) ∧
    ((initializeMgr
        ⟨false, fun cmd => cmd.args ≠ ["missing.py".toList]⟩
        [{ name := "good", type := .local, source := "good.py".toList,
           envVars := [], enabled := true, description := "" },
         { name := "bad", type := .local, source := "missing.py".toList,
           envVars := [], enabled := true, description := "" }]
        initialManager).activeClients.lookup "bad") = none := by
  refine ⟨by decide, ?_, ?_⟩
  · exact ((c2_partial_failure_isolation
      ⟨false, fun cmd => cmd.args ≠ ["missing.py".toList]⟩ _ initialManager
      (by decide) rfl rfl).2
      { name := "good", type := .local, source := "good.py".toList,
        envVars := [], enabled := true, description := "" }
      (by decide) rfl).1 (by decide)
  · exact ((c2_partial_failure_isolation
      ⟨false, fun cmd => cmd.args ≠ ["missing.py".toList]⟩ _ initialManager
      (by decide) rfl rfl).2
      { name := "bad", type := .local, source := "missing.py".toList,
        envVars := [], enabled := true, description := "" }
      (by decide) rfl).2 (by decide)

/-- C6 counterexample.  As stated — for *every* state of the manager — the
disabled-server gate is false: a server set up while enabled and then
disabled in the registry (`disable_mcp` does not stop it) is still in the
active map, and `setup_mcp` then returns `True`, not `False`, because the
already-active short-circuit (manager.py line 54) precedes the disabled
check (line 63). -/
theorem c6_counterexample :
    (getMcpConfig
      [{ name := "srv", type := .local, source := "a.py".toList,
         envVars := [], enabled := false, description := "" }] "srv").isSome ∧
    (setupMcp ⟨false, fun _ => false⟩
      [{ name := "srv", type := .local, source := "a.py".toList,
         envVars := [], enabled := false, description := "" }]
      { activeClients := [("srv", 0)], exitStack := [0],
        initialized := true, nextClientId := 1 } "srv").2 = true := by
  constructor
  · decide
  · rfl

/-- C6 (amended).  Disabled-server gate for names that are not currently
active: `setup_mcp` on a registered-but-disabled inactive name returns
`False` with the entire state unchanged, no matter how many times it is
called; and neither `setup_mcp` nor `initialize` ever starts a disabled
definition. -/
theorem c6_disabled_gate (env : SysEnv) (installed : List MCPConfig)
    (st : ManagerState) (name : String) (cfg : MCPConfig)
    (hcfg : getMcpConfig installed name = some cfg)
    (hdis : cfg.enabled = false)
    (hnotactive : st.activeClients.lookup name = none) :
    setupMcp env installed st name = (st, false) ∧
    (∀ n : Nat, iterSetup env installed st name n = st) ∧
    ((installed.map MCPConfig.name).Nodup →
      (initializeMgr env installed st).activeClients.lookup name = none) := by
  have hstep : setupMcp env installed st name = (st, false) := by
    unfold setupMcp
    rw [hnotactive]
    simp [hcfg, hdis]
  refine ⟨hstep, ?_, ?_⟩
  · intro n
    induction n with
    | zero => rfl
    | succ n ih =>
      unfold iterSetup
      rw [ih, hstep]
  · intro hnodup
    unfold initializeMgr
    split
    · exact hnotactive
    · simp only
      refine foldSetup_preserves_none env installed name
        (getEnabledMcps installed) st (fun c hc => ?_) hnotactive
      refine Or.inl (fun hcn => ?_)
      have hcmem : c ∈ installed ∧ c.enabled = true := by
        simpa [getEnabledMcps, List.mem_filter] using hc
      have hcfgc := getMcpConfig_mem hcfg
      have : c = cfg := by
        refine nodup_name_inj hnodup c hcmem.1 cfg hcfgc.1 ?_
        rw [hcn, hcfgc.2]
      rw [this] at hcmem
      rw [hdis] at hcmem
      exact Bool.false_ne_true hcmem.2

/-- Closed instance of the amended C6: a disabled registered server on a
fresh manager; `setup_mcp` returns `False`, three repeated calls leave the
state untouched, and `initialize` does not start it. -/
theorem c6_witness :
    setupMcp ⟨false, fun _ => true⟩
      [{ name := "srv", type := .local, source := "a.py".toList,
         envVars := [], enabled := false, description := "" }]
      initialManager "srv" = (initialManager, false) ∧
    iterSetup ⟨false, fun _ => true⟩
      [{ name := "srv", type := .local, source := "a.py".toList,
         envVars := [], enabled := false, description := "" }]
      initialManager "srv" 3 = initialManager ∧
    (initializeMgr ⟨false, fun _ => true⟩
      [{ name := "srv", type := .local, source := "a.py".toList,
         envVars := [], enabled := false, description := "" }]
      initialManager).activeClients.lookup "srv" = none := by
  have h := c6_disabled_gate ⟨false, fun _ => true⟩
    [{ name := "srv", type := .local, source := "a.py".toList,
       envVars := [], enabled := false, description := "" }]
    initialManager "srv"
    { name := "srv", type := .local, source := "a.py".toList,
      envVars := [], enabled := false, description := "" }
    (by decide) rfl rfl
  exact ⟨h.1, h.2.1 3, h.2.2 (by decide)⟩

/-- C7.  `call_mcp` fail-fast routing: an inactive name yields `None` with
no state change and no implicit start; an active name's call is delegated to
that client's `call_tool` and its result returned; the embedding is a total
function (the entry point catches every exception), and its state component
is always the input state. -/
theorem c7_call_mcp_routing {R : Type}
    (clientCall : Nat → String → List (String × String) → Option R)
    (st : ManagerState) (name toolName : String) (args : List (String × String)) :
    (st.activeClients.lookup name = none →
      callMcp clientCall st name toolName args = (st, none)) ∧
    (∀ c, st.activeClients.lookup name = some c →
      callMcp clientCall st name toolName args = (st, clientCall c toolName args)) ∧
    (callMcp clientCall st name toolName args).1 = st := by
  refine ⟨fun h => ?_, fun c h => ?_, ?_⟩
  · simp [callMcp, h]
  · simp [callMcp, h]
  · unfold callMcp
    cases st.activeClients.lookup name <;> rfl

/-- Closed instance of C7: an inactive name returns `None` from a fresh
manager without touching the state. -/
theorem c7_witness :
    callMcp (fun _ _ _ => (none : Option Nat)) initialManager "srv" "tool" []
      = (initialManager, none) :=
  (c7_call_mcp_routing (fun _ _ _ => (none : Option Nat))
    initialManager "srv" "tool" []).1 rfl

/-- C9.  Health-check is unconditional for active names: because
`MCPClient.list_tools` swallows every failure into `[]` (it never raises),
the `except` branch of `health_check` is unreachable, so `health_check`
returns exactly "the name is in the active map" — for every session oracle,
including one whose every call fails — and every row of `get_mcp_status`
reports `healthy = active`. -/
theorem c9_health_check_unconditional (sess : Nat → Except String (List String))
    (installed : List MCPConfig) (st : ManagerState) (name : String) :
    healthCheck sess st name = (st.activeClients.lookup name).isSome ∧
    (∀ row ∈ getMcpStatus sess installed st, row.2.healthy = row.2.active) := by
  have hall : ∀ nm, healthCheck sess st nm = (st.activeClients.lookup nm).isSome := by
    intro nm
    unfold healthCheck
    cases h : st.activeClients.lookup nm <;> simp [h]
  refine ⟨hall name, fun row hrow => ?_⟩
  simp only [getMcpStatus, List.mem_map] at hrow
  obtain ⟨cfg, _, hrow⟩ := hrow
  subst hrow
  by_cases ha : (st.activeClients.lookup cfg.name).isSome
  · simp [ha, hall]
  · simp [ha]

/-- C3.  Circuit breaker state machine.  Starting CLOSED (`cbInit`), an
expected-kind failure increments the consecutive-failure count, records the
failure time, and opens the circuit exactly when the count reaches
`failure_threshold`; while OPEN, any call made no later than
`recovery_timeout` after the last failure is rejected with an error, the
breaker untouched and the wrapped function not invoked; the first call after
the timeout elapses goes through (via HALF_OPEN): a success closes the
circuit and resets the count to zero, a failure reopens it and restarts the
recovery timer at that failure's time.  The final conjunct shows the
invariant (`CBInv`, which holds of `cbInit`) is preserved by every step. -/
theorem c3_circuit_breaker (th : Nat) (rt : ℚ) (cb : CB) (now t : ℚ)
    (hinv : CBInv cb) :
    ((cbInit th rt).state = .Closed ∧ (cbInit th rt).failureCount = 0 ∧
      CBInv (cbInit th rt)) ∧
    (cb.state = .Closed →
      cbCall cb now .expectedFail
        = ({ cb with
              failureCount := cb.failureCount + 1
              lastFailureTime := some now
              state := if cb.failureThreshold ≤ cb.failureCount + 1
                then .Open else .Closed },
            .raisedExpected)) ∧
    (cb.state = .Closed →
      cbCall cb now .success = ({ cb with failureCount := 0 }, .returned)) ∧
    (∀ outcome, cb.state = .Open → cb.lastFailureTime = some t →
      now - t ≤ cb.recoveryTimeout →
      cbCall cb now outcome = (cb, .rejected)) ∧
    (cb.state = .Open → cb.lastFailureTime = some t →
      cb.recoveryTimeout < now - t →
      cbCall cb now .success
          = ({ cb with state := .Closed, failureCount := 0 }, .returned) ∧
      cbCall cb now .expectedFail
          = ({ cb with
                state := .Open
                failureCount := cb.failureCount + 1
                lastFailureTime := some now }, .raisedExpected)) ∧
    (∀ outcome, CBInv (cbCall cb now outcome).1) := by
  obtain ⟨tth, trt, fc, lt, s⟩ := cb
  refine ⟨⟨rfl, rfl, by intro h; exact absurd rfl h⟩, ?_, ?_, ?_, ?_, ?_⟩
  · intro hs
    simp only at hs
    subst hs
    by_cases hth : tth ≤ fc + 1 <;> simp [cbCall, cbRun, hth]
  · intro hs
    simp only at hs
    subst hs
    simp [cbCall, cbRun]
  · intro outcome hs hlt hle
    simp only at hs hlt
    subst hs
    subst hlt
    simp [cbCall, not_lt.mpr hle]
  · intro hs hlt hgt
    simp only at hs hlt
    subst hs
    subst hlt
    have hth : tth ≤ fc := (hinv (by simp)).1
    constructor
    · simp [cbCall, cbRun, hgt]
    · simp [cbCall, cbRun, hgt, Nat.le_succ_of_le hth]
  · intro outcome
    have hnc : s ≠ CBState.Closed → tth ≤ fc ∧ lt.isSome := fun h => hinv h
    unfold CBInv
    cases s
    · -- CLOSED
      cases outcome
      · intro h
        simp [cbCall, cbRun] at h
      · by_cases hth : tth ≤ fc + 1
        · intro _
          refine ⟨?_, ?_⟩ <;> simp [cbCall, cbRun, hth]
        · intro h
          simp [cbCall, cbRun, hth] at h
      · intro h
        simp [cbCall, cbRun] at h
    · -- OPEN
      cases lt with
      | none =>
        have := (hnc (by simp)).2
        simp at this
      | some tt =>
        have hth : tth ≤ fc := (hnc (by simp)).1
        by_cases hgt : trt < now - tt
        · cases outcome
          · intro h
            simp [cbCall, cbRun, hgt] at h
          · intro _
            refine ⟨?_, ?_⟩ <;>
              simp [cbCall, cbRun, hgt, Nat.le_succ_of_le hth]
          · intro _
            refine ⟨?_, ?_⟩ <;> simp [cbCall, cbRun, hgt, hth]
        · intro _
          refine ⟨?_, ?_⟩ <;> simp [cbCall, hgt, hth]
    · -- HALF_OPEN
      have hth : tth ≤ fc := (hnc (by simp)).1
      have hsome : lt.isSome := (hnc (by simp)).2
      cases outcome
      · intro h
        simp [cbCall, cbRun] at h
      · intro _
        refine ⟨?_, ?_⟩ <;> simp [cbCall, cbRun, Nat.le_succ_of_le hth]
      · intro _
        refine ⟨?_, ?_⟩ <;> simp [cbCall, cbRun, hth, hsome]

/-! ## Fuzzy-matcher bounds -/

theorem foldl_max_lt {α : Type} (g : α → ℚ) (c : ℚ) :
    ∀ (l : List α) (init : ℚ), init < c → (∀ x ∈ l, g x < c) →
      l.foldl (fun b t => max b (g t)) init < c := by
  intro l
  induction l with
  | nil => intro init h _; exact h
  | cons x xs ih =>
    intro init h hall
    exact ih _ (max_lt h (hall x (List.mem_cons_self x xs)))
      (fun y hy => hall y (List.mem_cons_of_mem x hy))

theorem foldl_best_lt {α : Type} (score : α → ℚ) (c : ℚ) :
    ∀ (l : List α) (init : Option α × ℚ), init.2 < c → (∀ x ∈ l, score x < c) →
      (l.foldl (fun best x => if best.2 < score x then (some x, score x) else best)
        init).2 < c := by
  intro l
  induction l with
  | nil => intro init h _; exact h
  | cons x xs ih =>
    intro init h hall
    refine ih _ ?_ (fun y hy => hall y (List.mem_cons_of_mem x hy))
    show (if init.2 < score x then ((some x : Option α), score x) else init).2 < c
    by_cases hx : init.2 < score x
    · rw [if_pos hx]
      exact hall x (List.mem_cons_self x xs)
    · rw [if_neg hx]
      exact h

set_option maxRecDepth 8000 in
/-- C10 counterexample.  As stated the claim is false: for the query
`"show set"` against the single tool `"read_update"`, no query token is
similar to the tool name — the whole-query similarity is 4/19 ≈ 0.21 and
every token's similarity is at most 2/7 ≈ 0.29, all below 0.3 — yet the
verb bonuses alone (read-like `show`: +0.2 +0.15 because `"read"` occurs in
the name; edit-like `set`: +0.2 because `"update"` occurs in the name) push
the best score to 2123/2660 ≈ 0.80 ≥ 0.5, and the natural-language path
does invoke the tool instead of refusing. -/
theorem c10_counterexample :
    nlWouldInvoke ["read_update".toList] "show set".toList = true ∧
    simRatio ("show set".toList.map Char.toLower)
      ("read_update".toList.map Char.toLower) < 3/10 ∧
    ((queryTokens "show set".toList).all
      (fun t => decide (simRatio t ("read_update".toList.map Char.toLower) < 3/10)))
      = true ∧
    1/2 ≤ (bestToolMatch ["read_update".toList] "show set".toList).2 := by
  with_unfolding_all decide

/-- C10 (amended).  The matcher scores each tool name as half the
whole-string similarity plus half the best per-token similarity plus the
starts-with bonus plus the verb bonuses, and the highest-scoring name wins
(first conjunct — the formula, by definition).  The claimed sub-0.5
guarantee for dissimilar queries holds once the verb-bonus and starts-with
contributions are excluded (the counterexample shows the verb bonuses alone
can defeat it): if every name's whole-string and per-token similarities are
below 1/2, no token is a prefix of a name, and the query contains no
read-like or edit-like verb token, then the best score is below 1/2
(second conjunct).  And `cmd_nl` refuses to call any tool whenever the best
score is below 1/2 or no name was returned (third conjunct). -/
theorem c10_matcher_gate :
    (∀ queryL tokens name, scoreTool queryL tokens name =
      1/2 * simRatio queryL (name.map Char.toLower) +
      1/2 * tokens.foldl (fun b t => max b (simRatio t (name.map Char.toLower))) 0 +
      (if tokens.any (fun t => startsWithL t (name.map Char.toLower)) then
        (3/20 : ℚ) else 0) +
      ((if hasSubstr "read".toList (name.map Char.toLower) then
          (if readVerbs.any (fun v => tokens.contains v) then (1/5 : ℚ) else 0) +
          (if readVerbs.any (fun v => tokens.contains v) then (3/20 : ℚ) else 0)
        else 0) +
       (if hasSubstr "edit".toList (name.map Char.toLower) ||
           hasSubstr "write".toList (name.map Char.toLower) ||
           hasSubstr "update".toList (name.map Char.toLower) then
          (if editVerbs.any (fun v => tokens.contains v) then (1/5 : ℚ) else 0)
        else 0))) ∧
    (∀ tools query,
      (∀ name ∈ tools,
        simRatio (query.map Char.toLower) (name.map Char.toLower) < 1/2 ∧
        (∀ t ∈ queryTokens query, simRatio t (name.map Char.toLower) < 1/2) ∧
        (queryTokens query).any
          (fun t => startsWithL t (name.map Char.toLower)) = false) →
      (∀ v ∈ readVerbs, (queryTokens query).contains v = false) →
      (∀ v ∈ editVerbs, (queryTokens query).contains v = false) →
      (bestToolMatch tools query).2 < 1/2) ∧
    (∀ tools query,
      ((bestToolMatch tools query).1 = none ∨
        (bestToolMatch tools query).2 < 1/2) →
      nlWouldInvoke tools query = false) := by
  refine ⟨fun queryL tokens name => rfl, fun tools query hnames hrv hev => ?_,
    fun tools query h => ?_⟩
  · have hrv' : readVerbs.any (fun v => (queryTokens query).contains v) = false := by
      cases hany : readVerbs.any (fun v => (queryTokens query).contains v)
      · rfl
      · obtain ⟨v, hv, hcont⟩ := List.any_eq_true.mp hany
        rw [hrv v hv] at hcont
        exact absurd hcont (by simp)
    have hev' : editVerbs.any (fun v => (queryTokens query).contains v) = false := by
      cases hany : editVerbs.any (fun v => (queryTokens query).contains v)
      · rfl
      · obtain ⟨v, hv, hcont⟩ := List.any_eq_true.mp hany
        rw [hev v hv] at hcont
        exact absurd hcont (by simp)
    have hscore : ∀ name ∈ tools,
        scoreTool (query.map Char.toLower) (queryTokens query) name < 1/2 := by
      intro name hname
      obtain ⟨hbase, htok, hstarts⟩ := hnames name hname
      have htb : (queryTokens query).foldl
          (fun b t => max b (simRatio t (name.map Char.toLower))) 0 < 1/2 :=
        foldl_max_lt _ _ _ _ (by norm_num) htok
      simp only [scoreTool, hstarts, hrv', hev', Bool.false_eq_true, if_false,
        add_zero, ite_self]
      linarith
    unfold bestToolMatch
    exact foldl_best_lt _ _ tools (none, -1) (by norm_num) hscore
  · rcases hbm : bestToolMatch tools query with ⟨n, s⟩
    cases n with
    | none => simp [nlWouldInvoke, hbm]
    | some nm =>
      rcases h with hn | hs
      · rw [hbm] at hn
        exact absurd hn (by simp)
      · rw [hbm] at hs
        simp only at hs
        simp only [nlWouldInvoke, hbm]
        simp
        intro _
        linarith

set_option maxRecDepth 8000 in
/-- Closed instance of the amended C10: the query `"zq zz"` (no usable
tokens, no verbs) against the tool `"alpha"` scores below 1/2 and the
natural-language path refuses to invoke. -/
theorem c10_witness :
    (bestToolMatch ["alpha".toList] "zq zz".toList).2 < 1/2 ∧
    nlWouldInvoke ["alpha".toList] "zq zz".toList = false :=
  ⟨c10_matcher_gate.2.1 ["alpha".toList] "zq zz".toList
      (by with_unfolding_all decide) (by with_unfolding_all decide)
      (by with_unfolding_all decide),
   c10_matcher_gate.2.2 ["alpha".toList] "zq zz".toList
      (Or.inr (c10_matcher_gate.2.1 ["alpha".toList] "zq zz".toList
        (by with_unfolding_all decide) (by with_unfolding_all decide)
        (by with_unfolding_all decide)))⟩

/-! ## Installer persistence lemmas -/

theorem mcpTypeOfString_value (t : MCPType) : mcpTypeOfString t.value = some t := by
  cases t <;> rfl

theorem saveConfig_all_valid (l : List MCPConfig) :
    (saveConfig l).all (fun p => (mcpTypeOfString p.2.type).isSome) = true := by
  induction l with
  | nil => rfl
  | cons m ms ih =>
    have hstep : saveConfig (m :: ms)
        = (m.name, ⟨m.type.value, m.source, m.envVars, m.enabled, m.description⟩)
          :: saveConfig ms := rfl
    rw [hstep, List.all_cons, ih]
    simp [mcpTypeOfString_value]

/-- Reloading a config file the installer just wrote restores exactly the
in-memory catalog: the YAML mapping round-trips. -/
theorem loadConfig_saveConfig (l : List MCPConfig) :
    loadConfig (some (saveConfig l)) = l := by
  unfold loadConfig
  simp only []
  rw [saveConfig_all_valid l]
  simp only [if_true]
  induction l with
  | nil => rfl
  | cons m ms ih =>
    have hstep : saveConfig (m :: ms)
        = (m.name, ⟨m.type.value, m.source, m.envVars, m.enabled, m.description⟩)
          :: saveConfig ms := rfl
    rw [hstep, List.map_cons, ih]
    congr 1
    simp [mcpTypeOfString_value]

theorem find?_setCfg (l : List MCPConfig) (cfg : MCPConfig) :
    (setCfg l cfg).find? (fun c => c.name = cfg.name) = some cfg := by
  induction l with
  | nil => simp [setCfg, List.find?]
  | cons c cs ih =>
    by_cases hc : c.name = cfg.name
    · simp [setCfg, hc, List.find?]
    · simp only [setCfg, if_neg hc]
      rw [List.find?]
      simp [hc, ih]

/-- C8.  Install failure cases with atomicity: `install_mcp` returns
`False` when the source has an unknown scheme prefix, when a `local://`
source's referenced file does not exist, or when the reserved `registry://`
scheme is used (its `NotImplementedError` is caught and turned into
`False`); in each case the returned state is exactly the input state — the
in-memory catalog, the on-disk file and the filesystem are untouched,
because every one of these failures is raised before any mutation. -/
theorem c8_install_failure_atomic (dockerOk : Bool) (st : InstallerState)
    (name : String) (source : List Char) (description : String)
    (envVars : List (String × String)) :
    ((startsWithL "docker://".toList source = false ∧
      startsWithL "local://".toList source = false ∧
      startsWithL "registry://".toList source = false) →
      installMcp dockerOk st name source description envVars = (st, false)) ∧
    (∀ rest, source = "local://".toList ++ rest →
      st.fs (stripScheme "local://".toList source) = none →
      installMcp dockerOk st name source description envVars = (st, false)) ∧
    (∀ rest, source = "registry://".toList ++ rest →
      installMcp dockerOk st name source description envVars = (st, false)) := by
  refine ⟨fun ⟨h1, h2, h3⟩ => ?_, fun rest hsrc hfs => ?_, fun rest hsrc => ?_⟩
  · unfold installMcp
    rw [h1, h2, h3]
    simp only [Bool.false_eq_true, if_false]
  · subst hsrc
    have hd : startsWithL "docker://".toList ("local://".toList ++ rest) = false := rfl
    have hl : startsWithL "local://".toList ("local://".toList ++ rest) = true := rfl
    unfold installMcp
    rw [hd, hl]
    simp only [Bool.false_eq_true, if_false, eq_self_iff_true, if_true, hfs]
  · subst hsrc
    have hd : startsWithL "docker://".toList ("registry://".toList ++ rest) = false := rfl
    have hl : startsWithL "local://".toList ("registry://".toList ++ rest) = false := rfl
    have hg : startsWithL "registry://".toList ("registry://".toList ++ rest) = true := rfl
    unfold installMcp
    rw [hd, hl, hg]
    simp only [Bool.false_eq_true, if_false, eq_self_iff_true, if_true]

/-- Closed instance of C8: an unknown scheme, a missing local file and the
reserved registry scheme each return `False` and leave the state exactly as
it was. -/
theorem c8_witness :
    installMcp false ⟨[], none, fun _ => none⟩ "x" "nonsense".toList "" []
      = (⟨[], none, fun _ => none⟩, false) ∧
    installMcp false ⟨[], none, fun _ => none⟩ "x" "local://missing.py".toList "" []
      = (⟨[], none, fun _ => none⟩, false) ∧
    installMcp false ⟨[], none, fun _ => none⟩ "x" "registry://foo".toList "" []
      = (⟨[], none, fun _ => none⟩, false) :=
  ⟨(c8_install_failure_atomic false ⟨[], none, fun _ => none⟩ "x"
      "nonsense".toList "" []).1 ⟨by decide, by decide, by decide⟩,
   (c8_install_failure_atomic false ⟨[], none, fun _ => none⟩ "x"
      "local://missing.py".toList "" []).2.1 "missing.py".toList (by decide) rfl,
   (c8_install_failure_atomic false ⟨[], none, fun _ => none⟩ "x"
      "registry://foo".toList "" []).2.2 "foo".toList (by decide)⟩

/-- C5.  Install/reload round-trip: installing `local://P` for an existing
file `P` succeeds, and rebuilding a registry from the written config file
yields a definition with the same name, local kind, description and env
vars, whose `source` is the managed copy `mcps/{name}.py` — not the
original path `P` (whenever `P` is not itself that managed path).  The
`hstrip` hypothesis says Python's `source.replace("local://", "")` recovers
`P`, i.e. `P` does not itself contain the scheme marker. -/
theorem c5_install_roundtrip (dockerOk : Bool) (st : InstallerState)
    (name description : String) (envVars : List (String × String))
    (P content : List Char)
    (hfs : st.fs P = some content)
    (hstrip : stripScheme "local://".toList ("local://".toList ++ P) = P) :
    (installMcp dockerOk st name ("local://".toList ++ P) description envVars).2
      = true ∧
    ∃ cfg, getMcpConfig (loadConfig (installMcp dockerOk st name
        ("local://".toList ++ P) description envVars).1.disk) name = some cfg ∧
      cfg.name = name ∧ cfg.type = .local ∧ cfg.description = description ∧
      cfg.envVars = envVars ∧ cfg.source = managedPath name ∧
      (P ≠ managedPath name → cfg.source ≠ P) := by
  have hd : startsWithL "docker://".toList ("local://".toList ++ P) = false := rfl
  have hl : startsWithL "local://".toList ("local://".toList ++ P) = true := rfl
  unfold installMcp
  rw [hd, hl]
  simp only [Bool.false_eq_true, if_false, eq_self_iff_true, if_true, hstrip, hfs]
  by_cases hPt : P = managedPath name
  · rw [if_pos hPt]
    unfold finishInstall
    simp only []
    refine ⟨trivial, ⟨⟨name, .local, P, envVars, true, description⟩,
      ?_, rfl, rfl, rfl, rfl, hPt, fun hne => absurd hPt hne⟩⟩
    rw [loadConfig_saveConfig]
    exact find?_setCfg st.installed ⟨name, .local, P, envVars, true, description⟩
  · rw [if_neg hPt]
    unfold finishInstall
    simp only []
    refine ⟨trivial, ⟨⟨name, .local, managedPath name, envVars, true, description⟩,
      ?_, rfl, rfl, rfl, rfl, rfl, fun _ hc => hPt hc.symm⟩⟩
    rw [loadConfig_saveConfig]
    exact find?_setCfg st.installed ⟨name, .local, managedPath name, envVars, true, description⟩

/-- Closed instance of C5: installing `local://srv.py` (an existing file)
into an empty registry and reloading from disk yields the definition with
the managed-copy source `mcps/x.py`. -/
theorem c5_witness :
    ((fun p => if p = "srv.py".toList then some "code".toList else none : List Char → Option (List Char))
        "srv.py".toList = some "code".toList) ∧
    (installMcp false
        ⟨[], none, fun p => if p = "srv.py".toList then some "code".toList else none⟩
        "x" ("local://".toList ++ "srv.py".toList) "demo" [("K", "V")]).2 = true :=
  ⟨by decide,
   (c5_install_roundtrip false
      ⟨[], none, fun p => if p = "srv.py".toList then some "code".toList else none⟩
      "x" "demo" [("K", "V")] "srv.py".toList "code".toList
      (by decide) (by decide)).1⟩

/-! ## Characterization of the retry loop -/

/-- Full characterization of `retryGo` from any loop position `i` with the
backoff delay in its invariant form `delay * backoff ^ i`: the loop performs
between one and `maxA - i` further invocations, every non-final invocation
failed transiently, the sleeps are exactly the per-attempt wait choices over
the backoff schedule, a final success returns its value, and a final error
is re-raised — with a transient final error occurring only on the very last
allowed attempt. -/
theorem retryGo_char (f : Nat → Att) (maxA : Nat) (backoff delay : ℚ) :
    ∀ (fuel i : Nat) (waits : List ℚ) (r : ROut × List ℚ × Nat),
      fuel ≠ 0 → fuel + i = maxA →
      r = retryGo f maxA backoff fuel i (delay * backoff ^ i) waits →
      (i < r.2.2 ∧ r.2.2 ≤ maxA) ∧
      (∀ k, i ≤ k → k + 1 < r.2.2 → attErrTransient (f k) = true) ∧
      r.2.1 = waits ++ (List.range' i (r.2.2 - 1 - i)).map
        (fun k => waitChoice (f k) (delay * backoff ^ k)) ∧
      (∀ v, f (r.2.2 - 1) = .ok v → r.1 = .value v) ∧
      (∀ e, f (r.2.2 - 1) = .err e → r.1 = .raised e ∧
        (transientErr e = true → r.2.2 = maxA)) := by
  intro fuel
  induction fuel with
  | zero => intro i waits r h0; exact absurd rfl h0
  | succ n ih =>
    intro i waits r _ hsum hr
    simp only [retryGo] at hr
    cases hf : f i with
    | ok v =>
      rw [hf] at hr
      simp only [] at hr
      have h1 : r.1 = ROut.value v := by rw [hr]
      have h21 : r.2.1 = waits := by rw [hr]
      have h22 : r.2.2 = i + 1 := by rw [hr]
      refine ⟨⟨by omega, by omega⟩, fun k hik hk => absurd hk (by omega),
        ?_, fun v' hv' => ?_, fun e' he' => ?_⟩
      · rw [h21, h22]
        simp
      · rw [h22, Nat.add_sub_cancel, hf] at hv'
        injection hv' with hv'
        rw [h1, hv']
      · rw [h22, Nat.add_sub_cancel, hf] at he'
        exact absurd he' (by simp)
    | err e =>
      rw [hf] at hr
      simp only [] at hr
      cases ht : transientErr e with
      | false =>
        have hnt : ¬ transientErr e = true := by simp [ht]
        rw [if_neg hnt] at hr
        have h1 : r.1 = ROut.raised e := by rw [hr]
        have h21 : r.2.1 = waits := by rw [hr]
        have h22 : r.2.2 = i + 1 := by rw [hr]
        refine ⟨⟨by omega, by omega⟩, fun k hik hk => absurd hk (by omega),
          ?_, fun v' hv' => ?_, fun e' he' => ?_⟩
        · rw [h21, h22]
          simp
        · rw [h22, Nat.add_sub_cancel, hf] at hv'
          exact absurd hv' (by simp)
        · rw [h22, Nat.add_sub_cancel, hf] at he'
          injection he' with he'
          subst he'
          exact ⟨h1, fun htr => absurd htr (by simp [ht])⟩
      | true =>
        rw [if_pos ht] at hr
        by_cases hlast : i + 1 = maxA
        · rw [if_pos hlast] at hr
          have h1 : r.1 = ROut.raised e := by rw [hr]
          have h21 : r.2.1 = waits := by rw [hr]
          have h22 : r.2.2 = i + 1 := by rw [hr]
          refine ⟨⟨by omega, by omega⟩, fun k hik hk => absurd hk (by omega),
            ?_, fun v' hv' => ?_, fun e' he' => ?_⟩
          · rw [h21, h22]
            simp
          · rw [h22, Nat.add_sub_cancel, hf] at hv'
            exact absurd hv' (by simp)
          · rw [h22, Nat.add_sub_cancel, hf] at he'
            injection he' with he'
            subst he'
            exact ⟨h1, fun _ => by rw [h22]; exact hlast⟩
        · rw [if_neg hlast] at hr
          have hcur : delay * backoff ^ i * backoff = delay * backoff ^ (i + 1) := by
            rw [pow_succ, mul_assoc]
          rw [hcur] at hr
          obtain ⟨⟨h1, h2⟩, h3, h4, h5, h6⟩ :=
            ih (i + 1) (waits ++ [waitChoice (.err e) (delay * backoff ^ i)]) r
              (by omega) (by omega) hr
          refine ⟨⟨by omega, h2⟩, fun k hik hk => ?_, ?_, h5, h6⟩
          · rcases Nat.eq_or_lt_of_le hik with rfl | hik'
            · rw [hf]
              simp [attErrTransient, ht]
            · exact h3 k hik' hk
          · rw [h4, List.append_assoc, List.singleton_append]
            have hm : r.2.2 - 1 - i = (r.2.2 - 1 - (i + 1)) + 1 := by omega
            rw [hm, List.range'_succ, List.map_cons, hf]

/-- C4 counterexample.  The claim says a rate-limit error carrying a
`retry_after` value makes the wrapper wait exactly `retry_after`; but
`retry_after = 0` is a carried value that is falsy in Python
(`if isinstance(e, MCPRateLimitError) and e.retry_after:`), so the wrapper
waits the computed backoff delay `1.0`, not `0`: with `max_attempts = 2,
delay = 1, backoff_factor = 2`, a first attempt failing with
`MCPRateLimitError(retry_after=0)` is followed by a sleep of `1`, not `0`. -/
theorem c4_counterexample :
    withRetry 2 1 2
        (fun i => if i = 0 then .err (.rateLimitErr (some 0)) else .ok 7)
      = (.value 7, [(1 : ℚ)], 2) ∧ (1 : ℚ) ≠ 0 := by
  constructor
  · decide
  · norm_num

/-- C4 (amended: a rate-limit error must carry a *nonzero* `retry_after` for
it to replace the computed backoff, since `0` is falsy in Python).  Retry
wrapper contract, for `max_attempts ≥ 1`: the wrapped call is attempted
between 1 and `max_attempts` times; every attempt before the last failed
with a transient (connection / timeout / rate-limit) error; the sleeps
performed are exactly, per retried attempt, the exponential-backoff delay
`delay * backoff_factor ^ k` — except that a rate-limit error with nonzero
`retry_after` waits exactly `retry_after` instead; a non-transient error at
any reached attempt ends the loop immediately (it is the last attempt) and
is re-raised; a final success returns its value; and if every attempt fails
transiently, all `max_attempts` are used and the last error is re-raised. -/
theorem c4_retry_contract (maxA : Nat) (delay backoff : ℚ) (f : Nat → Att)
    (hpos : 1 ≤ maxA) :
    (1 ≤ (withRetry maxA delay backoff f).2.2 ∧
      (withRetry maxA delay backoff f).2.2 ≤ maxA) ∧
    (∀ k, k + 1 < (withRetry maxA delay backoff f).2.2 →
      attErrTransient (f k) = true) ∧
    ((withRetry maxA delay backoff f).2.1
      = (List.range ((withRetry maxA delay backoff f).2.2 - 1)).map
          (fun k => waitChoice (f k) (delay * backoff ^ k))) ∧
    (∀ k ra, k + 1 < (withRetry maxA delay backoff f).2.2 →
      f k = .err (.rateLimitErr (some ra)) → ra ≠ 0 →
      (withRetry maxA delay backoff f).2.1.get? k = some (ra : ℚ)) ∧
    (∀ v, f ((withRetry maxA delay backoff f).2.2 - 1) = .ok v →
      (withRetry maxA delay backoff f).1 = .value v) ∧
    (∀ e, f ((withRetry maxA delay backoff f).2.2 - 1) = .err e →
      (withRetry maxA delay backoff f).1 = .raised e ∧
      (transientErr e = true → (withRetry maxA delay backoff f).2.2 = maxA)) ∧
    (∀ k e, k < (withRetry maxA delay backoff f).2.2 → f k = .err e →
      transientErr e = false →
      (withRetry maxA delay backoff f).2.2 = k + 1 ∧
      (withRetry maxA delay backoff f).1 = .raised e) ∧
    ((∀ k, k < maxA → attErrTransient (f k) = true) →
      ∃ e, f (maxA - 1) = .err e ∧
        (withRetry maxA delay backoff f).1 = .raised e ∧
        (withRetry maxA delay backoff f).2.2 = maxA) := by
  have hdef : withRetry maxA delay backoff f
      = retryGo f maxA backoff maxA 0 (delay * backoff ^ 0) [] := by
    rw [pow_zero, mul_one]
    rfl
  obtain ⟨⟨h1, h2⟩, h3, h4, h5, h6⟩ :=
    retryGo_char f maxA backoff delay maxA 0 []
      (withRetry maxA delay backoff f) (by omega) (by omega) hdef
  have hwaits : (withRetry maxA delay backoff f).2.1
      = (List.range ((withRetry maxA delay backoff f).2.2 - 1)).map
          (fun k => waitChoice (f k) (delay * backoff ^ k)) := by
    rw [h4, List.nil_append, Nat.sub_zero, List.range_eq_range']
  refine ⟨⟨h1, h2⟩, fun k hk => h3 k (Nat.zero_le k) hk, hwaits,
    fun k ra hk hfk hra => ?_, h5, h6, fun k e hk hfk hnt => ?_, fun hall => ?_⟩
  · rw [hwaits, List.get?_map, List.get?_range (by omega)]
    simp [waitChoice, hfk, hra]
  · have hklast : k = (withRetry maxA delay backoff f).2.2 - 1 := by
      by_contra hne
      have hlt : k + 1 < (withRetry maxA delay backoff f).2.2 := by omega
      have htr := h3 k (Nat.zero_le k) hlt
      rw [hfk] at htr
      simp [attErrTransient, hnt] at htr
    subst hklast
    exact ⟨by omega, (h6 e hfk).1⟩
  · have hfull : (withRetry maxA delay backoff f).2.2 = maxA := by
      by_contra hne
      have hlt : (withRetry maxA delay backoff f).2.2 - 1 < maxA := by omega
      have htr := hall _ hlt
      cases hfl : f ((withRetry maxA delay backoff f).2.2 - 1) with
      | ok v =>
        rw [hfl] at htr
        simp [attErrTransient] at htr
      | err e =>
        rw [hfl] at htr
        simp only [attErrTransient] at htr
        exact hne ((h6 e hfl).2 htr)
    have htr := hall (maxA - 1) (by omega)
    cases hfl : f (maxA - 1) with
    | ok v =>
      rw [hfl] at htr
      simp [attErrTransient] at htr
    | err e =>
      refine ⟨e, rfl, ?_, hfull⟩
      rw [hfull] at h6
      exact (h6 e hfl).1

/-- Closed instance of the amended C4: three attempts, the first failing
with `retry_after = 5` (nonzero, so the sleep is exactly 5); the recorded
first sleep is `5`, not the backoff value `1`. -/
theorem c4_witness :
    (1 ≤ 3) ∧
    (withRetry 3 1 2
        (fun i => if i = 0 then .err (.rateLimitErr (some 5))
          else if i = 1 then .err .connErr else .ok 9)).2.1.get? 0
      = some (5 : ℚ) :=
  ⟨by norm_num,
    (c4_retry_contract 3 1 2
      (fun i => if i = 0 then .err (.rateLimitErr (some 5))
        else if i = 1 then .err .connErr else .ok 9)
      (by norm_num)).2.2.2.1 0 5 (by decide) (by decide) (by decide)⟩

/-- Closed instance of C3, the spec's own scenario with
`failure_threshold = 3`: an OPEN breaker (after 3 failures, last at time 2)
rejects a call at time 10 without invoking anything; an OPEN breaker whose
last failure was at time 100 lets a call at time 200 through and a success
closes it with the count reset to zero. -/
theorem c3_witness :
    cbCall ⟨3, 60, 3, some 2, .Open⟩ 10 .success
      = (⟨3, 60, 3, some 2, .Open⟩, .rejected) ∧
    cbCall ⟨3, 60, 3, some 100, .Open⟩ 200 .success
      = (⟨3, 60, 0, some 100, .Closed⟩, .returned) :=
  ⟨(c3_circuit_breaker 3 60 ⟨3, 60, 3, some 2, .Open⟩ 10 2
      (by intro _; exact ⟨le_refl 3, rfl⟩)).2.2.2.1 .success rfl rfl (by norm_num),
   ((c3_circuit_breaker 3 60 ⟨3, 60, 3, some 100, .Open⟩ 200 100
      (by intro _; exact ⟨le_refl 3, rfl⟩)).2.2.2.2.1 rfl rfl (by norm_num)).1⟩

/-- Closed instance of C9: a manager with one active client whose session
always errors is still reported healthy, and its status row has
`healthy = active`. -/
theorem c9_witness :
    healthCheck (fun _ => .error "down")
      ⟨[("srv", 0)], [0], true, 1⟩ "srv" = true ∧
    (("srv", (⟨"local", true, true, true, ""⟩ : MCPStatusRow)) ∈
      getMcpStatus (fun _ => .error "down")
        [{ name := "srv", type := .local, source := "a.py".toList,
           envVars := [], enabled := true, description := "" }]
        ⟨[("srv", 0)], [0], true, 1⟩) ∧
    (⟨"local", true, true, true, ""⟩ : MCPStatusRow).healthy
      = (⟨"local", true, true, true, ""⟩ : MCPStatusRow).active :=
  ⟨((c9_health_check_unconditional (fun _ => .error "down") []
      ⟨[("srv", 0)], [0], true, 1⟩ "srv").1).trans (by rfl),
   by decide,
   (c9_health_check_unconditional (fun _ => .error "down")
      [{ name := "srv", type := .local, source := "a.py".toList,
         envVars := [], enabled := true, description := "" }]
      ⟨[("srv", 0)], [0], true, 1⟩ "srv").2
     ("srv", ⟨"local", true, true, true, ""⟩) (by decide)⟩
